import Mathlib

/-!
Verification of the expgo/generic concurrent memoizing cache and its
thread-safe map layer.

The embedding follows the Go sources:

* `Map[K,V]` (map.go) wraps `sync.Map`; its sequential per-key semantics is
  modelled as a function `K → Option V` (`Mmap`), with each wrapper method
  (`Load`, `Store`, `LoadOrStore`, `LoadAndDelete`, `Delete`, `Swap`,
  `CompareAndSwap`, `CompareAndDelete`) translated to a total Lean function.
  Go zero values are modelled by `Inhabited.default`.

* `Cache[K,V]` (cache.go) stores per key an `innerItem` made of a value, an
  error and a `sync.Once`. A cell is modelled as `Option (V × Option E)`:
  `none` while the once-guard has not fired, `some (v, e)` afterwards.
  `GetOrLoad` is modelled sequentially (`Cache.getOrLoad`) and, for the
  concurrency claim, as an interleaved transition system (`onceStep`) in
  which `LoadOrStore` and the body of `once.Do` are the atomic actions.

* `gmap.Map` (gmap/map.go) keeps a plain map under a lock; `Range` clones
  the mapping under the lock and then iterates the clone. The live mapping
  is modelled as an association list with unique keys, and the interleaving
  of one `Range` call with concurrent mutators as the transition system
  `rangeStep`.
-/

namespace Generic

variable {K V E R : Type}

/-- Sequential contents of the `sync.Map` inside `Map[K,V]` (map.go). -/
def Mmap (K V : Type) := K → Option V

/-- `Map.Load` (map.go): value plus found flag; zero value when absent. -/
def Load [Inhabited V] (m : Mmap K V) (k : K) : V × Bool :=
  match m k with
  | some v => (v, true)
  | none => (default, false)

/-- `Map.Store` (map.go): unconditional insert or overwrite. -/
def Store [DecidableEq K] (m : Mmap K V) (k : K) (v : V) : Mmap K V :=
  Function.update m k (some v)

/-- `Map.LoadOrStore` (map.go): result `((actual, loaded), newMap)`. -/
def LoadOrStore [DecidableEq K] (m : Mmap K V) (k : K) (v : V) :
    (V × Bool) × Mmap K V :=
  match m k with
  | some w => ((w, true), m)
  | none => ((v, false), Function.update m k (some v))

/-- `Map.LoadAndDelete` (map.go): result `((value, loaded), newMap)`. -/
def LoadAndDelete [DecidableEq K] [Inhabited V] (m : Mmap K V) (k : K) :
    (V × Bool) × Mmap K V :=
  match m k with
  | some v => ((v, true), Function.update m k none)
  | none => ((default, false), m)

/-- `Map.Delete` (map.go). -/
def Delete [DecidableEq K] (m : Mmap K V) (k : K) : Mmap K V :=
  Function.update m k none

/-- `Map.Swap` (map.go): result `((previous, loaded), newMap)`. -/
def Swap [DecidableEq K] [Inhabited V] (m : Mmap K V) (k : K) (v : V) :
    (V × Bool) × Mmap K V :=
  match m k with
  | some w => ((w, true), Function.update m k (some v))
  | none => ((default, false), Function.update m k (some v))

/-- `Map.CompareAndSwap` (map.go): swaps only when the present value equals
`old`; result `(swapped, newMap)`. -/
def CompareAndSwap [DecidableEq K] [DecidableEq V] (m : Mmap K V) (k : K)
    (old new : V) : Bool × Mmap K V :=
  match m k with
  | some w => if w = old then (true, Function.update m k (some new)) else (false, m)
  | none => (false, m)

/-- `Map.CompareAndDelete` (map.go): deletes only when the present value
equals `old`; result `(deleted, newMap)`. -/
def CompareAndDelete [DecidableEq K] [DecidableEq V] (m : Mmap K V) (k : K)
    (old : V) : Bool × Mmap K V :=
  match m k with
  | some w => if w = old then (true, Function.update m k none) else (false, m)
  | none => (false, m)

/-- Runtime-faithful `Map.CompareAndSwap` (map.go, delegating to
`sync.Map`): the comparison of the stored and expected values happens at
runtime at the dynamic value type, so it is partial — `cmp` returns `none`
when the value type is not comparable (a Go slice, map or function type),
which makes the whole call panic, modelled as an overall `none`. Whether
the key is present decides whether a comparison happens at all: an absent
key returns `(false, m)` without comparing. -/
def CompareAndSwapRT [DecidableEq K] (cmp : V → V → Option Bool)
    (m : Mmap K V) (k : K) (old new : V) : Option (Bool × Mmap K V) :=
  match m k with
  | some w =>
    match cmp w old with
    | some true => some (true, Function.update m k (some new))
    | some false => some (false, m)
    | none => none
  | none => some (false, m)

/-- Runtime-faithful `Map.CompareAndDelete` (map.go), with the same
partial runtime comparison as `CompareAndSwapRT`. -/
def CompareAndDeleteRT [DecidableEq K] (cmp : V → V → Option Bool)
    (m : Mmap K V) (k : K) (old : V) : Option (Bool × Mmap K V) :=
  match m k with
  | some w =>
    match cmp w old with
    | some true => some (true, Function.update m k none)
    | some false => some (false, m)
    | none => none
  | none => some (false, m)

lemma compareAndSwapRT_total [DecidableEq K] [DecidableEq V] (m : Mmap K V)
    (k : K) (old new : V) :
    CompareAndSwapRT (fun a b => some (decide (a = b))) m k old new =
      some (CompareAndSwap m k old new) := by
  unfold CompareAndSwapRT CompareAndSwap
  cases h : m k with
  | none => rfl
  | some w => by_cases hw : w = old <;> simp [hw]

lemma compareAndDeleteRT_total [DecidableEq K] [DecidableEq V] (m : Mmap K V)
    (k : K) (old : V) :
    CompareAndDeleteRT (fun a b => some (decide (a = b))) m k old =
      some (CompareAndDelete m k old) := by
  unfold CompareAndDeleteRT CompareAndDelete
  cases h : m k with
  | none => rfl
  | some w => by_cases hw : w = old <;> simp [hw]

/-- The per-key cell of `Cache[K,V]` (cache.go, `innerItem`): `none` while
the `sync.Once` guard has not fired, `some (value, err)` afterwards. A Go
`error` is `Option E` with `none` for nil. -/
abbrev Cell (V E : Type) := Option (V × Option E)

/-- Contents of the `Map[K, *innerItem[V]]` inside `Cache` (cache.go). -/
abbrev CacheMap (K V E : Type) := Mmap K (Cell V E)

/-- `Cache.GetOrLoad` (cache.go), sequentially. The nil check comes first
and panics, modelled as an `Except.error` distinct from loader results;
then `LoadOrStore` with a fresh unfired cell; then `once.Do` fires the
loader when the resolved cell is unfired. Result: `(outcome, newMap,
loaderInvoked)`. -/
def Cache.getOrLoad [DecidableEq K] (c : CacheMap K V E) (k : K)
    (loadFunc : Option (K → V × Option E)) :
    Except String (V × Option E) × CacheMap K V E × Bool :=
  match loadFunc with
  | none => (Except.error "load function must not be nil", c, false)
  | some f =>
    let step := LoadOrStore c k (none : Cell V E)
    match step.1.1 with
    | some r => (Except.ok r, step.2, false)
    | none =>
      let r := f k
      (Except.ok r, Function.update step.2 k (some (some r)), true)

/-- `Cache.Evict` (cache.go): `LoadAndDelete` on the inner map, reporting
whether an entry existed. -/
def Cache.evict [DecidableEq K] (c : CacheMap K V E) (k : K) :
    Bool × CacheMap K V E :=
  let r := LoadAndDelete c k
  (r.1.2, r.2)

/-- `Cache.Clear` (cache.go): the inner map is replaced by a fresh empty
one. -/
def Cache.clear (_c : CacheMap K V E) : CacheMap K V E := fun _ => none

/-- Claim C5: for every map state, key and candidate value, `LoadOrStore`
inserts and returns `(v, false)` when the key is absent, and returns the
existing value with `true` while leaving the map unchanged (every key maps
to the same value as before) when the key is present. -/
theorem loadOrStore_spec [DecidableEq K] (m : Mmap K V) (k : K) (v : V) :
    (m k = none →
      LoadOrStore m k v = ((v, false), Function.update m k (some v)) ∧
      (LoadOrStore m k v).2 k = some v) ∧
    (∀ w, m k = some w →
      LoadOrStore m k v = ((w, true), m) ∧
      ∀ k2, (LoadOrStore m k v).2 k2 = m k2) := by
  constructor
  · intro h
    simp [LoadOrStore, h, Function.update_same]
  · intro w h
    simp [LoadOrStore, h]

/-- Claim C5 witness: concrete absent and present cases. -/
theorem loadOrStore_spec_witness :
    (LoadOrStore (fun _ => (none : Option Nat)) 1 5 =
      ((5, false), Function.update (fun _ => (none : Option Nat)) 1 (some 5))) ∧
    (LoadOrStore (Function.update (fun _ => (none : Option Nat)) 1 (some 5)) 1 7 =
      ((5, true), Function.update (fun _ => (none : Option Nat)) 1 (some 5))) := by
  refine ⟨((loadOrStore_spec (fun _ => none) 1 5).1 rfl).1, ?_⟩
  exact (((loadOrStore_spec (Function.update (fun _ => none) 1 (some 5)) 1 7).2 5
    (by simp [Function.update_same])).1)

/-- Claim C6: `CompareAndSwap` returns true and replaces the value with
`new` iff the key is present with a stored value equal to `old`; otherwise
it returns false and leaves the map completely unchanged. -/
theorem compareAndSwap_spec [DecidableEq K] [DecidableEq V] (m : Mmap K V)
    (k : K) (old new : V) :
    ((CompareAndSwap m k old new).1 = true ↔ m k = some old) ∧
    (m k = some old →
      CompareAndSwap m k old new = (true, Function.update m k (some new))) ∧
    (m k ≠ some old → CompareAndSwap m k old new = (false, m)) := by
  refine ⟨?_, ?_, ?_⟩
  · constructor
    · intro h
      unfold CompareAndSwap at h
      cases hm : m k with
      | none => rw [hm] at h; simp at h
      | some w =>
        rw [hm] at h
        by_cases hw : w = old
        · rw [hw]
        · simp [hw] at h
    · intro h
      simp [CompareAndSwap, h]
  · intro h
    simp [CompareAndSwap, h]
  · intro h
    unfold CompareAndSwap
    cases hm : m k with
    | none => rfl
    | some w =>
      have hw : w ≠ old := by
        intro he
        apply h
        rw [hm, he]
      simp [hw]

/-- Claim C6 witness: successful swap on a match, map untouched and false
on a mismatch and on an absent key. -/
theorem compareAndSwap_spec_witness :
    (CompareAndSwap (Function.update (fun _ => (none : Option Nat)) 1 (some 5)) 1 5 9 =
      (true, Function.update (Function.update (fun _ => (none : Option Nat)) 1 (some 5)) 1 (some 9))) ∧
    (CompareAndSwap (Function.update (fun _ => (none : Option Nat)) 1 (some 5)) 1 6 9 =
      (false, Function.update (fun _ => (none : Option Nat)) 1 (some 5))) ∧
    (CompareAndSwap (fun _ => (none : Option Nat)) 2 5 9 =
      (false, fun _ => (none : Option Nat))) := by
  refine ⟨?_, ?_, ?_⟩
  · exact (compareAndSwap_spec (Function.update (fun _ => none) 1 (some 5)) 1 5 9).2.1
      (by simp [Function.update_same])
  · exact (compareAndSwap_spec (Function.update (fun _ => none) 1 (some 5)) 1 6 9).2.2
      (by simp [Function.update_same])
  · exact (compareAndSwap_spec (fun _ => none) 2 5 9).2.2 (by simp)

/-- Claim C7 counterexample, refuting the claim as stated: with a
non-comparable value type (a Go slice type such as `[]int`, whose runtime
comparator has no defined result), both `compareAndSwap` and
`compareAndDelete` on a present key fail with a runtime panic instead of
signalling through a boolean flag — so not every operation is failure-free
for unconstrained V on every input. -/
theorem map_ops_no_failure_counterexample :
    CompareAndSwapRT (fun _ _ => (none : Option Bool))
      (Function.update (fun _ => (none : Option (List Int))) 1 (some [1]))
      1 [1] [2] = none ∧
    CompareAndDeleteRT (fun _ _ => (none : Option Bool))
      (Function.update (fun _ => (none : Option (List Int))) 1 (some [1]))
      1 [1] = none := by
  constructor <;>
    simp [CompareAndSwapRT, CompareAndDeleteRT, Function.update_same]

/-- Claim C7 as amended: for load, store, loadOrStore, loadAndDelete,
delete, swap, range and size the operations never fail for unconstrained V
and absence of a key is signalled solely through the boolean found/loaded
flag (each flag equals the presence of the key, and on an absent key the
operations return zero-value results with a false flag, leaving the map
unchanged where they mutate conditionally); compareAndSwap and
compareAndDelete are failure-free provided the value type supports
equality — with a non-comparable value type they panic on a present key,
while on an absent key they still return false without comparing and
without failing. -/
theorem map_ops_no_failure [DecidableEq K] [DecidableEq V] [Inhabited V]
    (m : Mmap K V) (k : K) (v : V) :
    ((Load m k).2 = (m k).isSome) ∧
    ((LoadOrStore m k v).1.2 = (m k).isSome) ∧
    ((LoadAndDelete m k).1.2 = (m k).isSome) ∧
    ((Swap m k v).1.2 = (m k).isSome) ∧
    (m k = none →
      Load m k = (default, false) ∧
      LoadAndDelete m k = ((default, false), m) ∧
      ∀ old, CompareAndSwap m k old v = (false, m) ∧
        CompareAndDelete m k old = (false, m)) ∧
    (∀ cmp : V → V → Option Bool, m k = none → ∀ old,
      CompareAndSwapRT cmp m k old v = some (false, m) ∧
      CompareAndDeleteRT cmp m k old = some (false, m)) := by
  refine ⟨?_, ?_, ?_, ?_, ?_, ?_⟩
  · cases h : m k <;> simp [Load, h]
  · cases h : m k <;> simp [LoadOrStore, h]
  · cases h : m k <;> simp [LoadAndDelete, h]
  · cases h : m k <;> simp [Swap, h]
  · intro h
    exact ⟨by simp [Load, h], by simp [LoadAndDelete, h],
      fun old => ⟨by simp [CompareAndSwap, h], by simp [CompareAndDelete, h]⟩⟩
  · intro cmp h old
    exact ⟨by simp [CompareAndSwapRT, h], by simp [CompareAndDeleteRT, h]⟩

/-- Claim C7 witness: flags and absent-key behaviour on concrete maps,
including the absent-key case of the runtime-faithful comparison
operations under a non-comparable value type. -/
theorem map_ops_no_failure_witness :
    ((Load (fun _ => (none : Option Nat)) 3).2 = false) ∧
    ((Swap (Function.update (fun _ => (none : Option Nat)) 3 (some 4)) 3 8).1.2 = true) ∧
    (Load (fun _ => (none : Option Nat)) 3 = (default, false)) ∧
    (CompareAndSwap (fun _ => (none : Option Nat)) 3 5 8 =
      (false, fun _ => (none : Option Nat))) ∧
    (CompareAndSwapRT (fun _ _ => (none : Option Bool))
      (fun _ => (none : Option Nat)) 3 5 8 =
      some (false, fun _ => (none : Option Nat))) := by
  refine ⟨?_, ?_, ?_, ?_, ?_⟩
  · exact (map_ops_no_failure (fun _ => none) 3 0).1.trans (by simp)
  · exact (map_ops_no_failure (Function.update (fun _ => none) 3 (some 4)) 3 8).2.2.2.1.trans
      (by simp [Function.update_same])
  · exact ((map_ops_no_failure (fun _ => none) 3 0).2.2.2.2.1 rfl).1
  · exact (((map_ops_no_failure (fun _ => none) 3 8).2.2.2.2.1 rfl).2.2 5).1
  · exact ((map_ops_no_failure (fun _ => none) 3 8).2.2.2.2.2
      (fun _ _ => none) rfl 5).1

/-- Claim C10: `Swap` on an absent key inserts the new value and returns
the zero value with a false flag; after any swap the key is present with
the new value, and the flag reports the prior presence of the key. -/
theorem swap_spec [DecidableEq K] [Inhabited V] (m : Mmap K V) (k : K) (v : V) :
    (m k = none → Swap m k v = ((default, false), Function.update m k (some v))) ∧
    ((Swap m k v).2 k = some v) ∧
    ((Swap m k v).1.2 = (m k).isSome) := by
  refine ⟨?_, ?_, ?_⟩
  · intro h
    simp [Swap, h]
  · cases h : m k <;> simp [Swap, h, Function.update_same]
  · cases h : m k <;> simp [Swap, h]

/-- Claim C10 witness: swap on an absent key of a concrete map. -/
theorem swap_spec_witness :
    (Swap (fun _ => (none : Option Nat)) 2 9 =
      ((default, false), Function.update (fun _ => (none : Option Nat)) 2 (some 9))) ∧
    ((Swap (fun _ => (none : Option Nat)) 2 9).2 2 = some 9) := by
  exact ⟨(swap_spec (fun _ => none) 2 9).1 rfl, (swap_spec (fun _ => none) 2 9).2.1⟩

/-- Claim C2: once a cell for `k` is materialized (fired with pair `r`,
whether `r` carries a value or a loader-produced error) and not since
evicted or cleared, every later `getOrLoad` with any loader returns exactly
`r`, never invokes the new loader, and leaves the cache unchanged; in
particular a cached error stays until the key is evicted. -/
theorem getOrLoad_cached [DecidableEq K] (c : CacheMap K V E) (k : K)
    (r : V × Option E) (f : K → V × Option E) (h : c k = some (some r)) :
    Cache.getOrLoad c k (some f) = (Except.ok r, c, false) := by
  simp [Cache.getOrLoad, LoadOrStore, h]

/-- Loader used to materialize the C2 witness state; it returns an error. -/
def c2LoaderA : Nat → Nat × Option String := fun _ => (0, some "boom")

/-- A distinguishable second loader for the C2 witness. -/
def c2LoaderB : Nat → Nat × Option String := fun k => (k + 1, none)

/-- Cache state after materializing key 1 with the erroring loader. -/
def c2State : CacheMap Nat Nat String :=
  (Cache.getOrLoad (fun _ => none) 1 (some c2LoaderA)).2.1

/-- Claim C2 witness: key 1 was materialized by `c2LoaderA` (with a cached
error); a second call with the distinguishable `c2LoaderB` returns the
cached pair without invoking it. -/
theorem getOrLoad_cached_witness :
    c2State 1 = some (some (0, some "boom")) ∧
    Cache.getOrLoad c2State 1 (some c2LoaderB) =
      (Except.ok (0, some "boom"), c2State, false) := by
  have h : c2State 1 = some (some (0, some "boom")) := by
    simp [c2State, Cache.getOrLoad, LoadOrStore, c2LoaderA, Function.update_same]
  exact ⟨h, getOrLoad_cached c2State 1 (0, some "boom") c2LoaderB h⟩

/-- Claim C3: after a `getOrLoad` has materialized key `k`, `evict k`
reports true and a following `getOrLoad` with `f2` invokes `f2` and returns
its result; `evict` on an absent key reports false and leaves the cache
unchanged; after `clear`, `getOrLoad` on any key re-invokes its loader. -/
theorem evict_clear_enable_recompute [DecidableEq K] (c : CacheMap K V E)
    (k : K) (f1 f2 : K → V × Option E) :
    ((Cache.evict (Cache.getOrLoad c k (some f1)).2.1 k).1 = true) ∧
    ((Cache.getOrLoad (Cache.evict (Cache.getOrLoad c k (some f1)).2.1 k).2 k
        (some f2)).1 = Except.ok (f2 k)) ∧
    ((Cache.getOrLoad (Cache.evict (Cache.getOrLoad c k (some f1)).2.1 k).2 k
        (some f2)).2.2 = true) ∧
    (c k = none → Cache.evict c k = (false, c)) ∧
    ((Cache.getOrLoad (Cache.clear c) k (some f2)).1 = Except.ok (f2 k)) ∧
    ((Cache.getOrLoad (Cache.clear c) k (some f2)).2.2 = true) := by
  refine ⟨?_, ?_, ?_, ?_, ?_, ?_⟩
  · rcases h : c k with _ | (_ | r) <;>
      simp [Cache.getOrLoad, Cache.evict, LoadOrStore, LoadAndDelete, h,
        Function.update_same]
  · rcases h : c k with _ | (_ | r) <;>
      simp [Cache.getOrLoad, Cache.evict, LoadOrStore, LoadAndDelete, h,
        Function.update_same]
  · rcases h : c k with _ | (_ | r) <;>
      simp [Cache.getOrLoad, Cache.evict, LoadOrStore, LoadAndDelete, h,
        Function.update_same]
  · intro h
    simp [Cache.evict, LoadAndDelete, h]
  · rfl
  · rfl

/-- Empty cache used by the C3 witness. -/
def c3Empty : CacheMap Nat Nat String := fun _ => none

/-- First loader of the C3 witness. -/
def c3F1 : Nat → Nat × Option String := fun k => (k * 10, none)

/-- Second loader of the C3 witness. -/
def c3F2 : Nat → Nat × Option String := fun k => (k + 100, none)

/-- Claim C3 witness: materialize key 1, evict it, reload with a second
loader; evicting the empty cache reports false; clearing re-enables the
loader. -/
theorem evict_clear_enable_recompute_witness :
    ((Cache.evict (Cache.getOrLoad c3Empty 1 (some c3F1)).2.1 1).1 = true) ∧
    ((Cache.getOrLoad (Cache.evict (Cache.getOrLoad c3Empty 1 (some c3F1)).2.1 1).2 1
        (some c3F2)).1 = Except.ok (c3F2 1)) ∧
    (Cache.evict c3Empty 1 = (false, c3Empty)) ∧
    ((Cache.getOrLoad (Cache.clear c3Empty) 1 (some c3F2)).2.2 = true) := by
  have t := evict_clear_enable_recompute c3Empty 1 c3F1 c3F2
  exact ⟨t.1, t.2.1, t.2.2.2.1 rfl, t.2.2.2.2.2⟩

/-- Claim C4: a nil loader is rejected immediately with a contract error
distinct by construction from any loader outcome (a real loader call
always produces an `Except.ok` result, with loader failures inside it);
the cache state is returned untouched, so later calls with a valid loader
behave as if the violating call never happened. -/
theorem nil_loader_contract [DecidableEq K] (c : CacheMap K V E) (k : K)
    (f : K → V × Option E) :
    Cache.getOrLoad c k none =
      (Except.error "load function must not be nil", c, false) ∧
    ∃ r, (Cache.getOrLoad c k (some f)).1 = Except.ok r := by
  refine ⟨rfl, ?_⟩
  unfold Cache.getOrLoad
  rcases h : (LoadOrStore c k (none : Cell V E)).1.1 with _ | r
  · exact ⟨f k, by simp [h]⟩
  · exact ⟨r, by simp [h]⟩

/-- Cache state of the C9 witness: key 7 materialized with value 42. -/
def c9State : CacheMap Nat Nat String :=
  (Cache.getOrLoad (fun _ => none) 7 (some (fun _ => (42, none)))).2.1

/-- Claim C9: the nil-loader check runs before the cache lookup: even when
`k` already holds a materialized pair, `getOrLoad k none` signals the
contract violation, never returns the cached pair, and leaves the cell
untouched. -/
theorem nil_check_precedes_lookup [DecidableEq K] (c : CacheMap K V E)
    (k : K) (r : V × Option E) (h : c k = some (some r)) :
    Cache.getOrLoad c k none =
      (Except.error "load function must not be nil", c, false) ∧
    (Cache.getOrLoad c k none).2.1 k = some (some r) := by
  exact ⟨rfl, h⟩

/-- Claim C9 witness: on a cache holding key 7, a nil-loader call errors
and the cell still holds its pair afterwards. -/
theorem nil_check_precedes_lookup_witness :
    Cache.getOrLoad c9State 7 none =
      (Except.error "load function must not be nil", c9State, false) ∧
    (Cache.getOrLoad c9State 7 none).2.1 7 = some (some (42, none)) := by
  exact nil_check_precedes_lookup c9State 7 (42, none)
    (by simp [c9State, Cache.getOrLoad, LoadOrStore, Function.update_same])

/-- Program counter of one `GetOrLoad` caller in the interleaved model of
cache.go: before `LoadOrStore`, holding the shared cell, or finished. -/
inductive Pc where
  | start : Pc
  | mid : Pc
  | done : Pc
deriving DecidableEq

/-- Global state of `n` concurrent `GetOrLoad` callers on one key.
`created` records whether the map entry exists, `fired` the cell contents
once the `sync.Once` guard has run (the single loader execution result),
`counter` how many loader bodies have executed in total, `pc` and `res`
each caller's position and returned pair. -/
structure OnceState (n : Nat) (R : Type) where
  created : Bool
  fired : Option R
  counter : Nat
  pc : Fin n → Pc
  res : Fin n → Option R

/-- Atomic actions of caller `i`: the `LoadOrStore` call resolving the
shared cell, and the `once.Do` call together with the subsequent read of
the immutable fired cell. -/
inductive OnceAct (n : Nat) where
  | getCell (i : Fin n)
  | runOnce (i : Fin n)

/-- One interleaving step; `r i` is the pair caller `i`'s loader would
produce; an action by a caller not at the matching position is a stutter. -/
def onceStep {n : Nat} (r : Fin n → R) (s : OnceState n R) :
    OnceAct n → OnceState n R
  | .getCell i =>
      if s.pc i = .start then
        { s with created := true, pc := Function.update s.pc i .mid }
      else s
  | .runOnce i =>
      if s.pc i = .mid then
        match s.fired with
        | none =>
            { s with fired := some (r i), counter := s.counter + 1,
                     pc := Function.update s.pc i .done,
                     res := Function.update s.res i (some (r i)) }
        | some p =>
            { s with pc := Function.update s.pc i .done,
                     res := Function.update s.res i (some p) }
      else s

/-- Run a whole schedule of interleaved actions. -/
def onceRun {n : Nat} (r : Fin n → R) (s : OnceState n R) :
    List (OnceAct n) → OnceState n R
  | [] => s
  | a :: rest => onceRun r (onceStep r s a) rest

/-- Initial state: no map entry, unfired cell, loader never executed, all
callers at the start. -/
def onceInit (n : Nat) (R : Type) : OnceState n R :=
  ⟨false, none, 0, fun _ => .start, fun _ => .none⟩

/-- Inductive invariant: the execution counter matches whether the cell has
fired, and every finished caller returned exactly the fired contents. -/
def OnceInv {n : Nat} (s : OnceState n R) : Prop :=
  (s.counter = if s.fired.isSome then 1 else 0) ∧
  ∀ i, s.pc i = .done → s.res i = s.fired ∧ s.fired.isSome

lemma onceInv_init (n : Nat) (R : Type) : OnceInv (onceInit n R) := by
  constructor
  · rfl
  · intro i h
    exact absurd h (by simp [onceInit])

lemma onceInv_step {n : Nat} (r : Fin n → R) (s : OnceState n R)
    (a : OnceAct n) (hs : OnceInv s) : OnceInv (onceStep r s a) := by
  obtain ⟨hc, hd⟩ := hs
  cases a with
  | getCell i =>
    by_cases h : s.pc i = .start
    · refine ⟨by simpa [onceStep, h] using hc, ?_⟩
      intro j hj
      simp only [onceStep, h, if_pos] at hj ⊢
      by_cases hij : j = i
      · subst hij
        rw [Function.update_same] at hj
        exact absurd hj (by simp)
      · rw [Function.update_noteq hij] at hj
        exact hd j hj
    · simpa [onceStep, h] using ⟨hc, hd⟩
  | runOnce i =>
    by_cases h : s.pc i = .mid
    · cases hf : s.fired with
      | none =>
        have hc0 : s.counter = 0 := by simpa [hf] using hc
        constructor
        · simp [onceStep, h, hf, hc0]
        · intro j hj
          simp only [onceStep, h, hf, if_pos] at hj ⊢
          by_cases hij : j = i
          · subst hij
            simp [Function.update_same]
          · rw [Function.update_noteq hij] at hj
            have := hd j hj
            rw [hf] at this
            exact absurd this.2 (by simp)
      | some p =>
        constructor
        · simpa [onceStep, h, hf] using hc
        · intro j hj
          simp only [onceStep, h, hf, if_pos] at hj ⊢
          by_cases hij : j = i
          · subst hij
            simp [Function.update_same, hf]
          · rw [Function.update_noteq hij] at hj
            rw [Function.update_noteq hij]
            simpa [hf] using hd j hj
    · simpa [onceStep, h] using ⟨hc, hd⟩

lemma onceInv_run {n : Nat} (r : Fin n → R) (s : OnceState n R)
    (acts : List (OnceAct n)) (hs : OnceInv s) : OnceInv (onceRun r s acts) := by
  induction acts generalizing s with
  | nil => exact hs
  | cons a rest ih => exact ih _ (onceInv_step r s a hs)

/-- Claim C1: for any number `n > 0` of concurrent `getOrLoad` callers on
one key, with arbitrary per-caller loaders, and any interleaving of their
atomic actions in which every caller finishes, the loader body has executed
exactly once in total and every caller returned exactly the pair captured
by that single execution. -/
theorem getOrLoad_concurrent_once {n : Nat} {R : Type} (r : Fin n → R)
    (acts : List (OnceAct n)) (hn : 0 < n)
    (hdone : ∀ i, (onceRun r (onceInit n R) acts).pc i = .done) :
    (onceRun r (onceInit n R) acts).counter = 1 ∧
    (∀ i, (onceRun r (onceInit n R) acts).res i =
      (onceRun r (onceInit n R) acts).fired) ∧
    (∀ i j, (onceRun r (onceInit n R) acts).res i =
      (onceRun r (onceInit n R) acts).res j) := by
  have hinv := onceInv_run r (onceInit n R) acts (onceInv_init n R)
  obtain ⟨hc, hd⟩ := hinv
  have hfired : (onceRun r (onceInit n R) acts).fired.isSome :=
    (hd ⟨0, hn⟩ (hdone ⟨0, hn⟩)).2
  refine ⟨by rw [hc, if_pos hfired], fun i => (hd i (hdone i)).1, fun i j => ?_⟩
  rw [(hd i (hdone i)).1, (hd j (hdone j)).1]

/-- Loader results of the two callers in the C1 witness. -/
def c1Loaders : Fin 2 → Nat := fun i => if i = 0 then 5 else 7

/-- A schedule in which the two callers race: both resolve the cell, the
second fires the guard first, the first then observes the fired result. -/
def c1Acts : List (OnceAct 2) :=
  [.getCell 0, .getCell 1, .runOnce 1, .runOnce 0]

/-- Claim C1 witness: under the concrete racing schedule both callers
finish, the loader ran once, and both callers returned the single fired
result. -/
theorem getOrLoad_concurrent_once_witness :
    ((onceRun c1Loaders (onceInit 2 Nat) c1Acts).pc 0 = .done) ∧
    ((onceRun c1Loaders (onceInit 2 Nat) c1Acts).counter = 1) ∧
    ((onceRun c1Loaders (onceInit 2 Nat) c1Acts).res 0 =
      (onceRun c1Loaders (onceInit 2 Nat) c1Acts).fired) ∧
    ((onceRun c1Loaders (onceInit 2 Nat) c1Acts).res 0 =
      (onceRun c1Loaders (onceInit 2 Nat) c1Acts).res 1) := by
  have hdone : ∀ i, (onceRun c1Loaders (onceInit 2 Nat) c1Acts).pc i = .done := by
    decide
  have t := getOrLoad_concurrent_once c1Loaders c1Acts (by decide) hdone
  exact ⟨hdone 0, t.1, t.2.1 0, t.2.2 0 1⟩

/-- `gmap.Store` (gmap/map.go) on the locked plain map, modelled on an
association list with unique keys: overwrite in place or append. -/
def gstore [DecidableEq K] : List (K × V) → K → V → List (K × V)
  | [], k, v => [(k, v)]
  | p :: rest, k, v =>
      if p.1 = k then (k, v) :: rest else p :: gstore rest k v

/-- `gmap.Delete` (gmap/map.go): remove the entry for the key, if any. -/
def gdelete [DecidableEq K] : List (K × V) → K → List (K × V)
  | [], _ => []
  | p :: rest, k => if p.1 = k then rest else p :: gdelete rest k

/-- `gmap.Clone` (gmap/map.go): a fresh copy holding the same pairs. -/
def gclone : List (K × V) → List (K × V)
  | [] => []
  | p :: rest => (p.1, p.2) :: gclone rest

/-- The pairs visited by the `Range` loop of gmap/map.go over a snapshot:
it walks the clone and breaks right after the first pair on which the
visitor returns false. -/
def grangeVisit (f : K → V → Bool) : List (K × V) → List (K × V)
  | [] => []
  | (k, v) :: rest =>
      if f k v then (k, v) :: grangeVisit f rest else [(k, v)]

/-- `gmap.Range` (gmap/map.go): clone under the lock, then iterate the
clone; the result is the sequence of visited pairs. -/
def gRange (m : List (K × V)) (f : K → V → Bool) : List (K × V) :=
  grangeVisit f (gclone m)

/-- State of one in-progress `Range` call interleaved with mutators:
the live mapping, the pairs of the snapshot not yet visited, the pairs
already visited, and whether the visitor asked to stop. -/
structure RangeState (K V : Type) where
  live : List (K × V)
  pending : List (K × V)
  visited : List (K × V)
  stopped : Bool

/-- Atomic actions during the iteration: a concurrent `Store`, a
concurrent `Delete`, or the iterator visiting its next snapshot pair. -/
inductive RangeAct (K V : Type) where
  | store (k : K) (v : V)
  | del (k : K)
  | visitStep

/-- State at the moment `Range` is called: the snapshot is the clone of
the live mapping taken under the lock. -/
def rangeInit (m : List (K × V)) : RangeState K V :=
  ⟨m, gclone m, [], false⟩

/-- One interleaving step of mutators and the iterator. -/
def rangeStep [DecidableEq K] (f : K → V → Bool) (s : RangeState K V) :
    RangeAct K V → RangeState K V
  | .store k v => { s with live := gstore s.live k v }
  | .del k => { s with live := gdelete s.live k }
  | .visitStep =>
      if s.stopped then s
      else
        match s.pending with
        | [] => s
        | (k, v) :: rest =>
            if f k v then
              { s with pending := rest, visited := s.visited ++ [(k, v)] }
            else
              { s with pending := [], visited := s.visited ++ [(k, v)],
                       stopped := true }

/-- Run a whole interleaved schedule. -/
def rangeRun [DecidableEq K] (f : K → V → Bool) (s : RangeState K V) :
    List (RangeAct K V) → RangeState K V
  | [] => s
  | a :: rest => rangeRun f (rangeStep f s a) rest

/-- The live mapping produced by the mutator actions alone. -/
def applyMuts [DecidableEq K] (l : List (K × V)) :
    List (RangeAct K V) → List (K × V)
  | [] => l
  | .store k v :: rest => applyMuts (gstore l k v) rest
  | .del k :: rest => applyMuts (gdelete l k) rest
  | .visitStep :: rest => applyMuts l rest

lemma gclone_eq (l : List (K × V)) : gclone l = l := by
  induction l with
  | nil => rfl
  | cons p rest ih => simp [gclone, ih]

lemma grangeVisit_subset (f : K → V → Bool) (l : List (K × V)) :
    ∀ p ∈ grangeVisit f l, p ∈ l := by
  induction l with
  | nil => simp [grangeVisit]
  | cons q rest ih =>
    obtain ⟨k, v⟩ := q
    intro p hp
    by_cases h : f k v
    · simp only [grangeVisit, if_pos h, List.mem_cons] at hp
      rcases hp with hp | hp
      · simp [hp]
      · exact List.mem_cons_of_mem _ (ih p hp)
    · simp only [grangeVisit, if_neg h, List.mem_singleton] at hp
      simp [hp]

/-- Invariant of the interleaved iteration: the visited pairs extended by
what the iterator would still visit from its pending snapshot always equal
the pure range over the call-time mapping. -/
def RangeInv [DecidableEq K] (m : List (K × V)) (f : K → V → Bool)
    (s : RangeState K V) : Prop :=
  (s.stopped = false → s.visited ++ grangeVisit f s.pending = gRange m f) ∧
  (s.stopped = true → s.visited = gRange m f ∧ s.pending = [])

lemma rangeInv_init [DecidableEq K] (m : List (K × V)) (f : K → V → Bool) :
    RangeInv m f (rangeInit m) := by
  constructor
  · intro _
    simp [rangeInit, gRange]
  · intro h
    exact absurd h (by simp [rangeInit])

lemma rangeInv_step [DecidableEq K] (m : List (K × V)) (f : K → V → Bool)
    (s : RangeState K V) (a : RangeAct K V) (hs : RangeInv m f s) :
    RangeInv m f (rangeStep f s a) := by
  obtain ⟨h0, h1⟩ := hs
  cases a with
  | store k v => exact ⟨h0, h1⟩
  | del k => exact ⟨h0, h1⟩
  | visitStep =>
    cases hstop : s.stopped with
    | true =>
      have hstep : rangeStep f s .visitStep = s := by
        simp [rangeStep, hstop]
      rw [hstep]
      exact ⟨h0, h1⟩
    | false =>
      cases hp : s.pending with
      | nil =>
        have hstep : rangeStep f s .visitStep = s := by
          simp [rangeStep, hstop, hp]
        rw [hstep]
        exact ⟨h0, h1⟩
      | cons q rest =>
        obtain ⟨k, v⟩ := q
        have hvis := h0 hstop
        rw [hp] at hvis
        by_cases hf : f k v
        · have hstep : rangeStep f s .visitStep =
              { s with pending := rest, visited := s.visited ++ [(k, v)] } := by
            simp [rangeStep, hstop, hp, hf]
          rw [hstep]
          constructor
          · intro _
            show (s.visited ++ [(k, v)]) ++ grangeVisit f rest = gRange m f
            rw [List.append_assoc]
            simpa [grangeVisit, hf] using hvis
          · intro hcontra
            exact absurd (hstop ▸ hcontra) (by simp)
        · have hstep : rangeStep f s .visitStep =
              { s with pending := [], visited := s.visited ++ [(k, v)],
                       stopped := true } := by
            simp [rangeStep, hstop, hp, hf]
          rw [hstep]
          constructor
          · intro hcontra
            exact absurd hcontra (by simp)
          · intro _
            refine ⟨?_, rfl⟩
            show s.visited ++ [(k, v)] = gRange m f
            simpa [grangeVisit, hf] using hvis

lemma rangeInv_run [DecidableEq K] (m : List (K × V)) (f : K → V → Bool)
    (s : RangeState K V) (acts : List (RangeAct K V)) (hs : RangeInv m f s) :
    RangeInv m f (rangeRun f s acts) := by
  induction acts generalizing s with
  | nil => exact hs
  | cons a rest ih => exact ih _ (rangeInv_step m f s a hs)

lemma rangeRun_live [DecidableEq K] (f : K → V → Bool) (s : RangeState K V)
    (acts : List (RangeAct K V)) :
    (rangeRun f s acts).live = applyMuts s.live acts := by
  induction acts generalizing s with
  | nil => rfl
  | cons a rest ih =>
    cases a with
    | store k v => simpa [rangeRun, rangeStep, applyMuts] using ih _
    | del k => simpa [rangeRun, rangeStep, applyMuts] using ih _
    | visitStep =>
      have hlive : (rangeStep f s .visitStep).live = s.live := by
        by_cases hstop : s.stopped
        · simp [rangeStep, hstop]
        · cases hp : s.pending with
          | nil => simp [rangeStep, hstop, hp]
          | cons q rest2 =>
            obtain ⟨k, v⟩ := q
            by_cases hf : f k v <;> simp [rangeStep, hstop, hp, hf]
      simp only [rangeRun, applyMuts]
      rw [ih _, hlive]

/-- Claim C8: a `Range` call iterates the snapshot cloned at call time:
for every interleaved schedule of concurrent stores and deletes with the
iteration, once the iteration has consumed its snapshot the visited pairs
are exactly the pure range over the call-time mapping (hence pairs
inserted after the call began are never observed), every visited pair was
present at call time, the live mapping equals the result of the mutator
actions alone (the iteration never touches it), and the visitor stops the
iteration as soon as it returns false. -/
theorem range_snapshot_isolation [DecidableEq K] (m : List (K × V))
    (f : K → V → Bool) (acts : List (RangeAct K V))
    (hdone : (rangeRun f (rangeInit m) acts).pending = []) :
    (rangeRun f (rangeInit m) acts).visited = gRange m f ∧
    (∀ p ∈ (rangeRun f (rangeInit m) acts).visited, p ∈ m) ∧
    (rangeRun f (rangeInit m) acts).live = applyMuts m acts ∧
    (∀ (k : K) (v : V) (rest : List (K × V)), f k v = false →
      grangeVisit f ((k, v) :: rest) = [(k, v)]) := by
  have hinv := rangeInv_run m f (rangeInit m) acts (rangeInv_init m f)
  obtain ⟨h0, h1⟩ := hinv
  have hvis : (rangeRun f (rangeInit m) acts).visited = gRange m f := by
    cases hstop : (rangeRun f (rangeInit m) acts).stopped with
    | true => exact (h1 hstop).1
    | false =>
      have := h0 hstop
      rw [hdone] at this
      simpa [grangeVisit] using this
  refine ⟨hvis, ?_, ?_, ?_⟩
  · intro p hp
    rw [hvis] at hp
    have := grangeVisit_subset f (gclone m) p (by simpa [gRange] using hp)
    rwa [gclone_eq] at this
  · simpa [rangeInit] using rangeRun_live f (rangeInit m) acts
  · intro k v rest hf
    simp [grangeVisit, hf]

/-- Call-time mapping of the C8 witness. -/
def c8Map : List (Nat × Nat) := [(1, 10), (2, 20)]

/-- Visitor of the C8 witness: keeps going on every pair of the snapshot. -/
def c8Visit : Nat → Nat → Bool := fun _ _ => true

/-- Schedule of the C8 witness: a concurrent store of a new key 3 and a
delete of key 1 land in the middle of the iteration. -/
def c8Acts : List (RangeAct Nat Nat) :=
  [.visitStep, .store 3 30, .del 1, .visitStep, .visitStep]

/-- Claim C8 witness: under the concrete interleaving the iteration ends
with exactly the call-time pairs visited — the concurrently inserted key 3
is never observed — while the live mapping reflects the mutations. -/
theorem range_snapshot_isolation_witness :
    ((rangeRun c8Visit (rangeInit c8Map) c8Acts).pending = []) ∧
    ((rangeRun c8Visit (rangeInit c8Map) c8Acts).visited = gRange c8Map c8Visit) ∧
    ((rangeRun c8Visit (rangeInit c8Map) c8Acts).live = applyMuts c8Map c8Acts) := by
  have hdone : (rangeRun c8Visit (rangeInit c8Map) c8Acts).pending = [] := by
    decide
  have t := range_snapshot_isolation c8Map c8Visit c8Acts hdone
  exact ⟨hdone, t.1, t.2.2.1⟩

end Generic
